import Mathlib

/-!
Verification of the ansible-operator PlaybookPlan controller core.

Shallow embedding of the Rust sources:
  src/v1beta1/controllers/playbookplancontroller/triggers.rs
  src/v1beta1/controllers/playbookplancontroller/execution_evaluator.rs
  src/v1beta1/controllers/playbookplancontroller/status.rs
  src/v1beta1/controllers/playbookplancontroller/job_builder.rs
  src/v1beta1/controllers/inventory_resolver.rs
  src/v1beta1/controllers/nodeselector.rs
  src/v1beta1/ansible/inventory_renderer.rs
  src/utils.rs
  src/v1beta1/resources/playbookplan.rs

Conventions:
  - Rust BTreeMap<String, V> values are modelled as association lists
    (List (String × V)); BTreeMap insertion is the order-preserving sorted
    insertion btreeInsert; iteration over a BTreeMap is iteration over the
    association list.  Every reachable BTreeMap state is a sorted
    association list, so facts proved for all association lists cover them.
  - Rust u64 values are modelled as Nat (the operations used on them - XOR,
    base conversion, hex printing - never overflow, so no mod 2^64 is needed).
  - chrono DateTime / Duration values are modelled as Int (seconds).
  - the external cron crate and the external twox_hash hasher are modelled
    as parameters (CronLib, stream-hash functions): the repository's spec
    places both out of scope, and the claims quantify over their behaviour.
  - a Rust panic (.unwrap() on None / Err) is modelled by the value none of
    an Option-typed embedding.
-/

/-- Association-list lookup, modelling BTreeMap::get (on a sorted
no-duplicate list this is exactly map lookup). -/
def lookupKey {α : Type} : List (String × α) → String → Option α
  | [], _ => none
  | (k, v) :: rest, key => if k = key then some v else lookupKey rest key

/-- Lexicographic strict order on character lists, modelling the Ord
instance Rust's BTreeMap<String, _> sorts by. -/
def charListLt : List Char → List Char → Bool
  | [], [] => false
  | [], _ :: _ => true
  | _ :: _, [] => false
  | c :: cs, d :: ds => if c < d then true else if d < c then false else charListLt cs ds

/-- Lexicographic strict order on strings (executable). -/
def strLt (a b : String) : Bool := charListLt a.data b.data

/-- Sorted insertion, modelling BTreeMap::insert: keeps keys in ascending
strLt order, replaces the value when the key is already present. -/
def btreeInsert {α : Type} (key : String) (value : α) : List (String × α) → List (String × α)
  | [] => [(key, value)]
  | (k, v) :: rest =>
    if strLt key k then (key, value) :: (k, v) :: rest
    else if key = k then (key, value) :: rest
    else (k, v) :: btreeInsert key value rest

/-- One lowercase hex digit, as produced by Rust formatting with the x
format specifier. -/
def hexDigit (n : Nat) : Char :=
  if n < 10 then Char.ofNat (48 + n) else Char.ofNat (87 + n)

/-- Hex digits, most significant first, empty for 0.  The fuel argument
bounds the iterations of the digit loop (it strictly shrinks n by
division); fuel n is always enough since n / 16 < n for positive n. -/
def toHexDigitsAux : Nat → Nat → List Char
  | 0, _ => []
  | fuel + 1, n =>
    if n = 0 then []
    else toHexDigitsAux fuel (n / 16) ++ [hexDigit (n % 16)]

/-- Hex digits of n, most significant first, empty for 0. -/
def toHexDigits (n : Nat) : List Char :=
  toHexDigitsAux n n

/-- Rust formatting of a u64 with the x specifier (ExecutionHash::fmt in
execution_evaluator.rs): minimal lowercase hex digits, a single 0 for zero. -/
def hexStr (n : Nat) : String :=
  if n = 0 then "0" else ⟨toHexDigits n⟩

/- ------------------------------------------------------------------ -/
/- triggers.rs                                                        -/
/- ------------------------------------------------------------------ -/

/-- Timing enum from triggers.rs: whether a playbook should run now or
later. -/
inductive Timing where
  | Now (t : Int)
  | Delayed (t : Int)
deriving DecidableEq, Repr

/-- Model of the external cron crate (out of scope for the repository):
parse returns the schedule of a 6-field cron string, or none for a parse
error; a schedule maps an instant t to the first firing strictly after t,
or none when no firing exists.  Schedule::from_str + Schedule::after. -/
structure CronLib where
  parse : String → Option (Int → Option Int)

/-- forecast_next_run from triggers.rs.  The source prepends the string 0
and a space to the 5-field user expression, parses, and unwraps both the
parse result and the first element of the firing iterator; the two
 .unwrap() panics are modelled by none. -/
def forecast_next_run (lib : CronLib) (cron : String) (now : Int) (window : Option Int) : Option Int :=
  let offset_now := now - window.getD 0
  match lib.parse ("0 " ++ cron) with
  | none => none
  | some schedule => schedule offset_now

/-- evaluate_schedule from triggers.rs.  none propagates a panic from
forecast_next_run. -/
def evaluate_schedule (lib : CronLib) (schedule : Option String) (now : Int) (window : Int) :
    Option Timing :=
  match schedule with
  | none => some (Timing.Now now)
  | some cron =>
    match forecast_next_run lib cron now (some window) with
    | none => none
    | some next_run =>
      let offset_now := now - window
      let diff := next_run - offset_now
      if diff ≤ window then some (Timing.Now next_run) else some (Timing.Delayed next_run)

/-- First firing strictly after t of the daily schedule 0 0 20 * * *
(seconds field 0, minute 0, hour 20): firings are exactly the instants
congruent to 72000 modulo 86400 (measuring time in seconds with an origin
at a UTC midnight). -/
def daily20_next_after (t : Int) : Int :=
  t + 1 + (72000 - t - 1).emod 86400

/-- Cron-library model that implements exactly the 6-field expression
0 0 20 * * * (the 5-field user expression 0 20 * * * after prepending),
with daily-at-20:00:00-UTC semantics, and rejects everything else. -/
def daily20Lib : CronLib :=
  ⟨fun s => if s = "0 0 20 * * *" then some (fun t => some (daily20_next_after t)) else none⟩

/- ------------------------------------------------------------------ -/
/- execution_evaluator.rs and the status data model                   -/
/- ------------------------------------------------------------------ -/

/-- HostStatus from v1beta1/resources/playbookplan.rs. -/
structure HostStatus where
  last_applied_hash : String
deriving DecidableEq, Repr

/-- PlaybookPlanCondition from v1beta1/resources/playbookplan.rs
(last_transition_time modelled as Int seconds). -/
structure PlaybookPlanCondition where
  type_ : String
  status : String
  reason : Option String
  message : Option String
  last_transition_time : Option Int
deriving DecidableEq, Repr

/-- Phase from v1beta1/resources/playbookplan.rs. -/
inductive Phase where
  | Pending
  | Delayed
  | Applying
  | Scheduled
  | Finished
deriving DecidableEq, Repr

/-- PlaybookPlanStatus from v1beta1/resources/playbookplan.rs. -/
structure PlaybookPlanStatus where
  eligible_hosts : Option (List (String × List String))
  eligible_hosts_count : Option Nat
  last_rendered_generation : Option Int
  conditions : List PlaybookPlanCondition
  hosts_status : Option (List (String × HostStatus))
  next_run : Option Int
  phase : Option Phase
  current_hash : Option String
deriving DecidableEq, Repr

/-- find_outdated_hosts from execution_evaluator.rs.  The source returns
Result but every path is Ok, so the embedding returns the list directly.
hosts.values().flatten() enumerates the BTreeMap values (here: the
association-list entries in order) and concatenates them. -/
def find_outdated_hosts (status : PlaybookPlanStatus) (execution_hash : Nat) : List String :=
  match status.eligible_hosts with
  | none => []
  | some hosts =>
    match status.hosts_status with
    | none => (hosts.map Prod.snd).flatten
    | some hosts_status =>
      ((hosts.map Prod.snd).flatten).filter fun host =>
        match lookupKey hosts_status host with
        | none => true
        | some host_status => host_status.last_applied_hash ≠ hexStr execution_hash

/-- One item fed to a hasher: Hash::hash of a String key or of a byte
vector (secret value). -/
inductive HashItem where
  | str (s : String)
  | bytes (b : List Nat)
deriving DecidableEq, Repr

/-- The ordered stream of hasher inputs for one secret: for each
(key, value) entry in map order, the key then the value bytes
(the for loop in calculate_execution_hash). -/
def secretStream (secret : List (String × List Nat)) : List HashItem :=
  secret.flatMap fun kv => [HashItem.str kv.1, HashItem.bytes kv.2]

/-- calculate_execution_hash from execution_evaluator.rs, parameterized by
the external twox_hash XxHash3_64 hasher, modelled as a function M from
the ordered stream of hashed items to the finished u64: the hash of the
playbook text is chained with one digest per secret and the sequence is
XOR-folded starting from 0. -/
def calculate_execution_hash (M : List HashItem → Nat) (playbook : String)
    (secrets : List (List (String × List Nat))) : Nat :=
  (M [HashItem.str playbook] :: secrets.map (fun secret => M (secretStream secret))).foldl
    (fun prev next => prev ^^^ next) 0

/- ------------------------------------------------------------------ -/
/- status.rs                                                          -/
/- ------------------------------------------------------------------ -/

/-- JobCondition: the two fields of the Kubernetes job condition used by
status.rs. -/
structure JobCondition where
  type_ : String
  status : String
deriving DecidableEq, Repr

/-- The .status of a Kubernetes Job, restricted to the field used. -/
structure JobStatus where
  conditions : Option (List JobCondition)
deriving DecidableEq, Repr

/-- A Kubernetes Job, restricted to the fields used by status.rs. -/
structure Job where
  labels : Option (List (String × String))
  status : Option JobStatus
deriving DecidableEq, Repr

/-- Modelled from the spec: the labels module (not present under src/)
defines the job label key playbookplan.host carrying the target host. -/
def PLAYBOOKPLAN_HOST : String := "playbookplan.host"

/-- The success filter shared by count_successful and
evaluate_per_host_status in status.rs: the job has a condition of type
SuccessCriteriaMet with status True. -/
def job_is_successful (job : Job) : Bool :=
  match job.status with
  | none => false
  | some status =>
    match status.conditions with
    | none => false
    | some conditions =>
      conditions.any fun condition =>
        condition.type_ == "SuccessCriteriaMet" && condition.status == "True"

/-- The failure filter in count_failed: a condition of type Failed with
status True. -/
def job_is_failed (job : Job) : Bool :=
  match job.status with
  | none => false
  | some status =>
    match status.conditions with
    | none => false
    | some conditions =>
      conditions.any fun condition =>
        condition.type_ == "Failed" && condition.status == "True"

/-- count_successful from status.rs. -/
def count_successful (jobs : List Job) : Nat :=
  (jobs.filter job_is_successful).length

/-- count_failed from status.rs. -/
def count_failed (jobs : List Job) : Nat :=
  (jobs.filter job_is_failed).length

/-- The Running condition built in evaluate_playbookplan_conditions
(t models the chrono Local::now() timestamp taken in the executed branch). -/
def running_condition (num_running num_finished num_total : Nat) (t : Int) :
    PlaybookPlanCondition :=
  if num_finished < num_total then
    ⟨"Running", "True", some "JobsRunning",
      some (toString num_running ++ " jobs are currently running"), some t⟩
  else
    ⟨"Running", "False", none, none, some t⟩

/-- The Ready condition built in evaluate_playbookplan_conditions
(t models the chrono Local::now() timestamp taken in the executed branch). -/
def ready_condition (num_successful num_failed num_total num_running : Nat) (t : Int) :
    PlaybookPlanCondition :=
  if num_successful = num_total then
    ⟨"Ready", "True", some "AllJobsSucceeded",
      some (toString num_successful ++ "/" ++ toString num_total ++ " jobs completed successfully"),
      some t⟩
  else if num_failed > 0 then
    ⟨"Ready", "False", some "SomeOrAllJobsFailed",
      some (toString num_failed ++ "/" ++ toString num_total ++ " jobs have failed"), some t⟩
  else
    ⟨"Ready", "False", some "AwaitingJobResults",
      some (toString num_running ++ " jobs are running"), some t⟩

/-- upsert_condition from utils.rs, instantiated at PlaybookPlanCondition:
the first condition with the same type is left alone when status and
reason agree, replaced otherwise; with no type match the new condition is
pushed at the end. -/
def upsert_condition : List PlaybookPlanCondition → PlaybookPlanCondition →
    List PlaybookPlanCondition
  | [], new_condition => [new_condition]
  | existing :: rest, new_condition =>
    if existing.type_ = new_condition.type_ then
      if existing.status = new_condition.status ∧ existing.reason = new_condition.reason then
        existing :: rest
      else
        new_condition :: rest
    else
      existing :: upsert_condition rest new_condition

/-- evaluate_playbookplan_conditions from status.rs (t_running and t_ready
model the two Local::now() calls). -/
def evaluate_playbookplan_conditions (jobs : List Job) (t_running t_ready : Int)
    (status : PlaybookPlanStatus) : PlaybookPlanStatus :=
  let num_total := jobs.length
  let num_successful := count_successful jobs
  let num_failed := count_failed jobs
  let num_finished := num_failed + num_successful
  let num_running := num_total - num_finished
  let conditions :=
    upsert_condition status.conditions (running_condition num_running num_finished num_total t_running)
  let conditions :=
    upsert_condition conditions (ready_condition num_successful num_failed num_total num_running t_ready)
  { status with conditions := conditions }

/-- One for_each step of evaluate_per_host_status (status.rs lines
130-156): initialize hosts_status when absent, then write the entry for
the job's playbookplan.host label (skipping jobs without it); the
.entry().or_default() write leaves the entry holding exactly the new
last_applied_hash (HostStatus has no other field).  The source performs
the none-to-empty-map initialization before reading the label; since the
write path reads the map through getD [] the two orders coincide, and the
initialization is kept verbatim on the skip path. -/
def per_host_step (hash : Nat) (status : PlaybookPlanStatus) (job : Job) : PlaybookPlanStatus :=
  match lookupKey (job.labels.getD []) PLAYBOOKPLAN_HOST with
  | none =>
    if status.hosts_status.isNone then { status with hosts_status := some [] } else status
  | some target_host =>
    { status with
      hosts_status :=
        some (btreeInsert target_host ⟨hexStr hash⟩ (status.hosts_status.getD [])) }

/-- evaluate_per_host_status from status.rs: the successful jobs are
folded over the status. -/
def evaluate_per_host_status (jobs : List Job) (hash : Nat) (status : PlaybookPlanStatus) :
    PlaybookPlanStatus :=
  (jobs.filter job_is_successful).foldl (per_host_step hash) status

/-- The hosts written by evaluate_per_host_status: the playbookplan.host
labels of the successful jobs, in job order. -/
def successful_labeled_hosts (jobs : List Job) : List String :=
  (jobs.filter job_is_successful).filterMap fun job =>
    lookupKey (job.labels.getD []) PLAYBOOKPLAN_HOST

/-- Entry view of a possibly-absent hosts_status map: an absent map has no
entries. -/
def hostEntry (status : PlaybookPlanStatus) (host : String) : Option HostStatus :=
  lookupKey (status.hosts_status.getD []) host

/- ------------------------------------------------------------------ -/
/- utils.rs: encode_base36, generate_id; job_builder.rs: job name      -/
/- ------------------------------------------------------------------ -/

/-- The base-36 alphabet constant of encode_base36 in utils.rs. -/
def base36Alphabet : List Char := "abcdefghijklmnopqrstuvwxyz0123456789".toList

/-- Indexing utils.rs ALPHABET (the index is always num mod 36 < 36; the
default is irrelevant). -/
def base36Char (n : Nat) : Char := base36Alphabet.getD n 'a'

/-- The digit loop of encode_base36: digits most significant first (the
source pushes least-significant first and reverses), empty for zero.  The
fuel argument bounds the iterations of the while loop; fuel num is always
enough since num / 36 < num for positive num. -/
def encode_base36_digitsAux : Nat → Nat → List Char
  | 0, _ => []
  | fuel + 1, num =>
    if num = 0 then []
    else encode_base36_digitsAux fuel (num / 36) ++ [base36Char (num % 36)]

/-- Digits of num in base 36, most significant first, empty for zero. -/
def encode_base36_digits (num : Nat) : List Char :=
  encode_base36_digitsAux num num

/-- encode_base36 from utils.rs: six letters a for zero, otherwise the
base-36 digits. -/
def encode_base36 (num : Nat) : List Char :=
  if num = 0 then List.replicate 6 'a'
  else encode_base36_digits num

/-- generate_id from utils.rs: encode, then force length 5 by taking the
last five characters or left-padding with the letter a. -/
def generate_id (num : Nat) : List Char :=
  let encoded := encode_base36 num
  if encoded.length = 5 then encoded
  else if encoded.length > 5 then encoded.drop (encoded.length - 5)
  else List.replicate (5 - encoded.length) 'a' ++ encoded

/-- The metadata.name computed by create_job_for_host (job_builder.rs
lines 70-82).  The start-time hash is the external twox_hash digest of the
DateTime, modelled by the parameter hashTime over an abstract start-time
type; absent start times contribute 1.  The rest of the Job value built by
create_job_for_host does not influence the name and is not needed by the
claims. -/
def create_job_for_host_name {T : Type} (hashTime : T → Nat) (pb_name host : String)
    (hash : Nat) (start : Option T) : String :=
  let start_time_hash :=
    match start with
    | some s => hashTime s
    | none => 1
  "apply-" ++ pb_name ++ "-" ++ String.mk (generate_id (Nat.xor hash start_time_hash)) ++
    "-on-" ++ host

/- ------------------------------------------------------------------ -/
/- nodeselector.rs, inventory_resolver.rs, inventory_renderer.rs       -/
/- ------------------------------------------------------------------ -/

/-- NodeSelectorTerm from v1beta1/resources/playbookplan.rs. -/
inductive NodeSelectorTerm where
  | MatchLabels (labels : List (String × String))
deriving DecidableEq, Repr

/-- Hosts from v1beta1/resources/playbookplan.rs. -/
inductive Hosts where
  | FromClusterNodes (from_nodes : NodeSelectorTerm)
  | FromStaticList (from_list : List String)
deriving DecidableEq, Repr

/-- Inventory from v1beta1/resources/playbookplan.rs. -/
structure Inventory where
  name : String
  hosts : Hosts
deriving DecidableEq, Repr

/-- A cluster Node, restricted to the fields read by the resolver: its
name and its labels. -/
structure KNode where
  name : Option String
  labels : Option (List (String × String))
deriving DecidableEq, Repr

/-- node_matches_match_labels from nodeselector.rs: every selector pair
must be present verbatim in the node labels (absent node labels behave as
the empty map). -/
def node_matches_match_labels (node : KNode) (labels : List (String × String)) : Bool :=
  let actual_labels := node.labels.getD []
  labels.all fun kv =>
    match lookupKey actual_labels kv.1 with
    | some v => v == kv.2
    | none => false

/-- node_matches from nodeselector.rs. -/
def node_matches (node : KNode) (selector : NodeSelectorTerm) : Bool :=
  match selector with
  | NodeSelectorTerm.MatchLabels labels => node_matches_match_labels node labels

/-- resolve_hosts from inventory_resolver.rs: a static list is returned
verbatim; a node selector keeps the matching nodes in lister order,
mapping each to its name (empty string when unnamed). -/
def resolve_hosts (nodes : List KNode) (hosts_source : Hosts) : List String :=
  match hosts_source with
  | Hosts.FromStaticList from_list => from_list
  | Hosts.FromClusterNodes from_nodes =>
    (nodes.filter fun node => node_matches node from_nodes).map fun node => node.name.getD ""

/-- resolve from inventory_resolver.rs: each inventory's hosts are
resolved in spec order and inserted into a BTreeMap keyed by inventory
name (so enumeration of the result is in ascending key order, and a later
inventory with the same name overwrites an earlier one). -/
def resolve (nodes : List KNode) (inventories_spec : List Inventory) :
    List (String × List String) :=
  inventories_spec.foldl
    (fun resolved inventory =>
      btreeInsert inventory.name (resolve_hosts nodes inventory.hosts) resolved)
    []

/-- YAML values as built by inventory_renderer.rs (serde_yaml Mapping
preserves insertion order). -/
inductive Yaml where
  | str (s : String)
  | map (entries : List (String × Yaml))

/-- render_inventory from inventory_renderer.rs: one top-level entry per
group in map order, each group a mapping with the single key hosts whose
value maps every hostname (in order) to an empty mapping.  The final
serde_yaml string emission is the external codec and is not modelled. -/
def render_inventory (inventory : List (String × List String)) : Yaml :=
  Yaml.map (inventory.map fun group =>
    (group.1,
      Yaml.map [("hosts", Yaml.map (group.2.map fun hostname => (hostname, Yaml.map [])))]))

/-- The top-level keys of a YAML mapping, in order. -/
def yamlKeys : Yaml → List String
  | Yaml.map entries => entries.map Prod.fst
  | Yaml.str _ => []

/-- Frame relation: the two statuses agree on every field other than
hosts_status. -/
def same_except_hosts_status (a b : PlaybookPlanStatus) : Prop :=
  a.eligible_hosts = b.eligible_hosts ∧
  a.eligible_hosts_count = b.eligible_hosts_count ∧
  a.last_rendered_generation = b.last_rendered_generation ∧
  a.conditions = b.conditions ∧
  a.next_run = b.next_run ∧
  a.phase = b.phase ∧
  a.current_hash = b.current_hash

/- ------------------------------------------------------------------ -/
/- Helper lemmas                                                      -/
/- ------------------------------------------------------------------ -/

theorem lookupKey_btreeInsert {α : Type} (k : String) (v : α) (l : List (String × α))
    (key : String) :
    lookupKey (btreeInsert k v l) key = if k = key then some v else lookupKey l key := by
  induction l with
  | nil => simp [btreeInsert, lookupKey]
  | cons head rest ih =>
    obtain ⟨hk, hv⟩ := head
    cases hlt : strLt k hk
    · by_cases heq : k = hk
      · subst heq
        simp [btreeInsert, hlt, lookupKey]
        by_cases hkey : k = key <;> simp [hkey]
      · simp only [btreeInsert, hlt, Bool.false_eq_true, if_false, if_neg heq, lookupKey]
        by_cases hkey : hk = key
        · subst hkey
          simp [lookupKey, Ne.symm heq, heq, ih]
        · simp [lookupKey, hkey, ih]
    · simp [btreeInsert, hlt, lookupKey]

theorem foldl_xor_perm {l₁ l₂ : List Nat} (h : l₁.Perm l₂) :
    ∀ init : Nat, l₁.foldl (fun prev next => prev ^^^ next) init =
      l₂.foldl (fun prev next => prev ^^^ next) init := by
  induction h with
  | nil => intro init; rfl
  | cons x _ ih => intro init; simp only [List.foldl_cons]; exact ih _
  | swap x y l =>
    intro init
    simp only [List.foldl_cons]
    have hcomm : init ^^^ y ^^^ x = init ^^^ x ^^^ y := by
      rw [Nat.xor_assoc, Nat.xor_assoc, Nat.xor_comm y x]
    rw [hcomm]
  | trans _ _ ih₁ ih₂ => intro init; exact (ih₁ init).trans (ih₂ init)

/- ------------------------------------------------------------------ -/
/- Claims                                                             -/
/- ------------------------------------------------------------------ -/

/-- Claim C1: evaluate_schedule returns Now(now) when the cron expression
is absent; otherwise, with next the first firing of the 6-field expression
(user expression with a zero seconds field prepended) strictly after
now minus window as reported by the cron library, it returns Now(next)
exactly when next - (now - window) is at most the window and Delayed(next)
otherwise; concretely, for cron 0 20 * * * and a 60-second window the
results at 19:59:00Z, 20:00:00Z, 20:00:59Z and 20:01:00Z (seconds of day
71940, 72000, 72059, 72060) are Delayed(20:00:00Z), Now(20:00:00Z),
Now(20:00:00Z) and Delayed(next day 20:00:00Z). -/
theorem evaluate_schedule_spec :
    (∀ lib now window, evaluate_schedule lib none now window = some (Timing.Now now)) ∧
    (∀ lib cron now window next,
      forecast_next_run lib cron now (some window) = some next →
      evaluate_schedule lib (some cron) now window =
        some (if next - (now - window) ≤ window then Timing.Now next
              else Timing.Delayed next)) ∧
    (evaluate_schedule daily20Lib (some "0 20 * * *") 71940 60 = some (Timing.Delayed 72000) ∧
     evaluate_schedule daily20Lib (some "0 20 * * *") 72000 60 = some (Timing.Now 72000) ∧
     evaluate_schedule daily20Lib (some "0 20 * * *") 72059 60 = some (Timing.Now 72000) ∧
     evaluate_schedule daily20Lib (some "0 20 * * *") 72060 60 =
       some (Timing.Delayed 158400)) := by
  refine ⟨fun lib now window => rfl, fun lib cron now window next h => ?_, ?_⟩
  · simp only [evaluate_schedule, h]
    split <;> rfl
  · refine ⟨by decide, by decide, by decide, by decide⟩

/-- Witness for C1: the schedule-present branch at 20:00:00Z with the
daily cron model. -/
theorem evaluate_schedule_spec_witness :
    evaluate_schedule daily20Lib (some "0 20 * * *") 72000 60 =
      some (if (72000 : Int) - (72000 - 60) ≤ 60 then Timing.Now 72000
            else Timing.Delayed 72000) :=
  evaluate_schedule_spec.2.1 daily20Lib "0 20 * * *" 72000 60 72000 (by decide)

/-- Claim C9: forecast_next_run surfaces no error value: when the cron
library fails to parse the 6-field expression, or parses it but reports no
firing after now minus the window, the function panics (modelled as none),
and evaluate_schedule with a present schedule propagates that panic. -/
theorem forecast_next_run_no_error :
    (∀ lib cron now window, lib.parse ("0 " ++ cron) = none →
      forecast_next_run lib cron now window = none) ∧
    (∀ lib cron now window f, lib.parse ("0 " ++ cron) = some f →
      f (now - window.getD 0) = none →
      forecast_next_run lib cron now window = none) ∧
    (∀ lib cron now window,
      forecast_next_run lib cron now (some window) = none →
      evaluate_schedule lib (some cron) now window = none) := by
  refine ⟨fun lib cron now window h => ?_, fun lib cron now window f hp hf => ?_,
    fun lib cron now window h => ?_⟩
  · simp [forecast_next_run, h]
  · simp [forecast_next_run, hp, hf]
  · simp [evaluate_schedule, h]

/-- Witness for C9: a library rejecting every expression makes
forecast_next_run panic, and evaluate_schedule propagates it. -/
theorem forecast_next_run_no_error_witness :
    forecast_next_run ⟨fun _ => none⟩ "bogus" 0 none = none ∧
    evaluate_schedule ⟨fun _ => none⟩ (some "bogus") 0 15 = none :=
  ⟨forecast_next_run_no_error.1 ⟨fun _ => none⟩ "bogus" 0 none rfl,
   forecast_next_run_no_error.2.2 ⟨fun _ => none⟩ "bogus" 0 15
     (forecast_next_run_no_error.1 ⟨fun _ => none⟩ "bogus" 0 (some 15) rfl)⟩

/-- Claim C2: find_outdated_hosts returns the empty list when
eligible_hosts is absent; every enumerated host when hosts_status is
absent; and otherwise exactly the enumerated hosts whose hosts_status
entry is missing or whose last_applied_hash differs from the hex string of
the current fingerprint, preserving enumeration order; concretely, with
entries h1 to hash 1, h2 to hash 2, h3 to hash 1 and fingerprint 2 the
result is h1 then h3. -/
theorem find_outdated_hosts_spec :
    (∀ status hash,
      (status.eligible_hosts = none → find_outdated_hosts status hash = []) ∧
      (∀ eh, status.eligible_hosts = some eh → status.hosts_status = none →
        find_outdated_hosts status hash = (eh.map Prod.snd).flatten) ∧
      (∀ eh hs, status.eligible_hosts = some eh → status.hosts_status = some hs →
        find_outdated_hosts status hash =
          ((eh.map Prod.snd).flatten).filter fun host =>
            match lookupKey hs host with
            | none => true
            | some host_status => host_status.last_applied_hash ≠ hexStr hash)) ∧
    find_outdated_hosts
      ⟨some [("inv", ["h1", "h2", "h3"])], none, none, [],
        some [("h1", ⟨"1"⟩), ("h2", ⟨"2"⟩), ("h3", ⟨"1"⟩)], none, none, none⟩ 2 =
      ["h1", "h3"] := by
  refine ⟨fun status hash => ⟨fun h => ?_, fun eh heh hhs => ?_, fun eh hs heh hhs => ?_⟩, ?_⟩
  · simp [find_outdated_hosts, h]
  · simp [find_outdated_hosts, heh, hhs]
  · simp [find_outdated_hosts, heh, hhs]
  · decide

/-- Witness for C2: the hosts_status-absent clause applied to a concrete
status. -/
theorem find_outdated_hosts_spec_witness :
    find_outdated_hosts
      ⟨some [("inv", ["h1", "h2", "h3"])], none, none, [], none, none, none, none⟩ 1 =
      (([("inv", ["h1", "h2", "h3"])].map Prod.snd).flatten : List String) :=
  (find_outdated_hosts_spec.1
    ⟨some [("inv", ["h1", "h2", "h3"])], none, none, [], none, none, none, none⟩ 1).2.1
    [("inv", ["h1", "h2", "h3"])] rfl rfl

/-- Claim C3: calculate_execution_hash equals the digest of the playbook
XOR-folded with one digest per secret (each digest taken over the secret's
key/value stream in key order), and is therefore identical for every
permutation of the secret sequence. -/
theorem calculate_execution_hash_spec :
    (∀ M playbook secrets,
      calculate_execution_hash M playbook secrets =
        (secrets.map fun secret => M (secretStream secret)).foldl
          (fun prev next => prev ^^^ next) (M [HashItem.str playbook])) ∧
    (∀ M playbook (secrets₁ secrets₂ : List (List (String × List Nat))),
      secrets₁.Perm secrets₂ →
      calculate_execution_hash M playbook secrets₁ =
        calculate_execution_hash M playbook secrets₂) := by
  constructor
  · intro M playbook secrets
    simp [calculate_execution_hash, Nat.zero_xor]
  · intro M playbook secrets₁ secrets₂ hperm
    simp only [calculate_execution_hash, List.foldl_cons]
    exact foldl_xor_perm (hperm.map fun secret => M (secretStream secret)) _

/-- Witness for C3: a concrete three-secret permutation yields the same
fingerprint (the stream-hash model is the stream length). -/
theorem calculate_execution_hash_spec_witness :
    calculate_execution_hash (fun items => items.length) "P"
      [[("k1", [1])], [("k2", [2]), ("k3", [3])], []] =
    calculate_execution_hash (fun items => items.length) "P"
      [[], [("k2", [2]), ("k3", [3])], [("k1", [1])]] :=
  calculate_execution_hash_spec.2 (fun items => items.length) "P"
    [[("k1", [1])], [("k2", [2]), ("k3", [3])], []]
    [[], [("k2", [2]), ("k3", [3])], [("k1", [1])]]
    (by decide)

theorem base36Char_mem (n : Nat) : base36Char n ∈ base36Alphabet := by
  unfold base36Char
  rcases h : base36Alphabet[n]? with _ | c
  · simp [List.getD, h]
    decide
  · have hmem : c ∈ base36Alphabet := List.getElem?_mem h
    simp [List.getD, h, hmem]

theorem mem_encode_base36_digitsAux (fuel : Nat) :
    ∀ num c, c ∈ encode_base36_digitsAux fuel num → c ∈ base36Alphabet := by
  induction fuel with
  | zero => intro num c hc; simp [encode_base36_digitsAux] at hc
  | succ f ih =>
    intro num c hc
    by_cases h : num = 0
    · simp [encode_base36_digitsAux, h] at hc
    · simp only [encode_base36_digitsAux, if_neg h, List.mem_append, List.mem_singleton] at hc
      rcases hc with hc | hc
      · exact ih _ _ hc
      · subst hc; exact base36Char_mem _

theorem mem_encode_base36 (num : Nat) (c : Char) (hc : c ∈ encode_base36 num) :
    c ∈ base36Alphabet := by
  by_cases h : num = 0
  · simp only [encode_base36, if_pos h, List.mem_replicate] at hc
    rw [hc.2]; decide
  · simp only [encode_base36, if_neg h, encode_base36_digits] at hc
    exact mem_encode_base36_digitsAux _ _ _ hc

theorem generate_id_length (num : Nat) : (generate_id num).length = 5 := by
  unfold generate_id
  by_cases h5 : (encode_base36 num).length = 5
  · simp [h5]
  · by_cases hg : (encode_base36 num).length > 5
    · simp only [if_neg h5, if_pos hg, List.length_drop]
      omega
    · simp only [if_neg h5, if_neg hg, List.length_append, List.length_replicate]
      omega

theorem mem_generate_id (num : Nat) (c : Char) (hc : c ∈ generate_id num) :
    c ∈ base36Alphabet := by
  unfold generate_id at hc
  by_cases h5 : (encode_base36 num).length = 5
  · simp only [if_pos h5] at hc
    exact mem_encode_base36 _ _ hc
  · by_cases hg : (encode_base36 num).length > 5
    · simp only [if_neg h5, if_pos hg] at hc
      exact mem_encode_base36 _ _ (List.mem_of_mem_drop hc)
    · simp only [if_neg h5, if_neg hg, List.mem_append, List.mem_replicate] at hc
      rcases hc with hc | hc
      · rw [hc.2]; decide
      · exact mem_encode_base36 _ _ hc

/-- Claim C6: create_job_for_host computes metadata.name deterministically
as apply-, the plan name, a dash, a five-character base-36 identifier
derived from the fingerprint XOR the start-time digest (1 when no start
time is given), then -on- and the host. -/
theorem create_job_for_host_name_spec :
    ∀ (T : Type) (hashTime : T → Nat) (pb_name host : String) (hash : Nat) (start : Option T),
      create_job_for_host_name hashTime pb_name host hash start =
        "apply-" ++ pb_name ++ "-" ++
          String.mk (generate_id (Nat.xor hash ((start.map hashTime).getD 1))) ++
          "-on-" ++ host ∧
      (generate_id (Nat.xor hash ((start.map hashTime).getD 1))).length = 5 ∧
      (∀ c ∈ generate_id (Nat.xor hash ((start.map hashTime).getD 1)), c ∈ base36Alphabet) ∧
      create_job_for_host_name hashTime pb_name host hash start =
        create_job_for_host_name hashTime pb_name host hash start := by
  intro T hashTime pb_name host hash start
  refine ⟨?_, generate_id_length _, fun c hc => mem_generate_id _ _ hc, rfl⟩
  cases start <;> rfl

/-- Witness for C6: concrete name equation and identifier length with no
start time. -/
theorem create_job_for_host_name_spec_witness :
    create_job_for_host_name (fun n : Nat => n) "plan" "host1" 0 none =
      "apply-" ++ "plan" ++ "-" ++ String.mk (generate_id (Nat.xor 0 1)) ++ "-on-" ++ "host1" ∧
    (generate_id (Nat.xor 0 1)).length = 5 :=
  ⟨(create_job_for_host_name_spec Nat (fun n => n) "plan" "host1" 0 none).1,
   (create_job_for_host_name_spec Nat (fun n => n) "plan" "host1" 0 none).2.1⟩

/-- Claim C8: upsert_condition leaves the list entirely unchanged when the
first condition of the same type agrees on status and reason; replaces
that condition (in place, everything else untouched) when status or reason
differs; appends the new condition when no condition of that type exists. -/
theorem upsert_condition_spec :
    ∀ (conditions : List PlaybookPlanCondition) (new_condition : PlaybookPlanCondition),
      (conditions.find? (fun c => c.type_ == new_condition.type_) = none →
        upsert_condition conditions new_condition = conditions ++ [new_condition]) ∧
      (∀ c, conditions.find? (fun c => c.type_ == new_condition.type_) = some c →
        c.status = new_condition.status → c.reason = new_condition.reason →
        upsert_condition conditions new_condition = conditions) ∧
      (∀ c, conditions.find? (fun c => c.type_ == new_condition.type_) = some c →
        ¬(c.status = new_condition.status ∧ c.reason = new_condition.reason) →
        ∃ pre post, conditions = pre ++ c :: post ∧
          (∀ d ∈ pre, d.type_ ≠ new_condition.type_) ∧
          upsert_condition conditions new_condition = pre ++ new_condition :: post) := by
  intro conditions new_condition
  induction conditions with
  | nil =>
    refine ⟨fun _ => rfl, fun c hc => ?_, fun c hc => ?_⟩ <;> simp at hc
  | cons existing rest ih =>
    by_cases hty : existing.type_ = new_condition.type_
    · have hfind : (existing :: rest).find? (fun c => c.type_ == new_condition.type_) =
          some existing := by
        simp [List.find?_cons, hty]
      refine ⟨fun hnone => ?_, fun c hc hs hr => ?_, fun c hc hne => ?_⟩
      · rw [hfind] at hnone; exact absurd hnone (by simp)
      · rw [hfind] at hc
        injection hc with hc; subst hc
        simp [upsert_condition, hty, hs, hr]
      · rw [hfind] at hc
        injection hc with hc; subst hc
        refine ⟨[], rest, rfl, by simp, ?_⟩
        simp [upsert_condition, hty, hne]
    · have hfind : (existing :: rest).find? (fun c => c.type_ == new_condition.type_) =
          rest.find? (fun c => c.type_ == new_condition.type_) := by
        simp [List.find?_cons, hty]
      have hup : upsert_condition (existing :: rest) new_condition =
          existing :: upsert_condition rest new_condition := by
        simp [upsert_condition, hty]
      refine ⟨fun hnone => ?_, fun c hc hs hr => ?_, fun c hc hne => ?_⟩
      · rw [hfind] at hnone
        rw [hup, ih.1 hnone]; rfl
      · rw [hfind] at hc
        rw [hup, ih.2.1 c hc hs hr]
      · rw [hfind] at hc
        obtain ⟨pre, post, hsplit, hpre, hres⟩ := ih.2.2 c hc hne
        refine ⟨existing :: pre, post, by rw [hsplit]; rfl, ?_, by rw [hup, hres]; rfl⟩
        intro d hd
        rcases List.mem_cons.mp hd with hd | hd
        · rw [hd]; exact hty
        · exact hpre d hd

/-- Witness for C8: a same-type, same-status, same-reason upsert leaves a
concrete one-element list unchanged. -/
theorem upsert_condition_spec_witness :
    upsert_condition [⟨"Ready", "True", some "AllJobsSucceeded", some "old message", some 5⟩]
      ⟨"Ready", "True", some "AllJobsSucceeded", some "new message", some 9⟩ =
    [⟨"Ready", "True", some "AllJobsSucceeded", some "old message", some 5⟩] :=
  (upsert_condition_spec
    [⟨"Ready", "True", some "AllJobsSucceeded", some "old message", some 5⟩]
    ⟨"Ready", "True", some "AllJobsSucceeded", some "new message", some 9⟩).2.1
    ⟨"Ready", "True", some "AllJobsSucceeded", some "old message", some 5⟩
    (by decide) rfl rfl

theorem upsert_condition_find (cs : List PlaybookPlanCondition) (n : PlaybookPlanCondition) :
    ∃ c, (upsert_condition cs n).find? (fun d => d.type_ == n.type_) = some c ∧
      c.type_ = n.type_ ∧ c.status = n.status ∧ c.reason = n.reason := by
  induction cs with
  | nil => exact ⟨n, by simp [upsert_condition, List.find?_cons], rfl, rfl, rfl⟩
  | cons existing rest ih =>
    by_cases hty : existing.type_ = n.type_
    · by_cases hsr : existing.status = n.status ∧ existing.reason = n.reason
      · refine ⟨existing, ?_, hty, hsr.1, hsr.2⟩
        simp [upsert_condition, hty, hsr, List.find?_cons]
      · refine ⟨n, ?_, rfl, rfl, rfl⟩
        simp [upsert_condition, hty, hsr, List.find?_cons]
    · obtain ⟨c, hc, hcty, hcs, hcr⟩ := ih
      refine ⟨c, ?_, hcty, hcs, hcr⟩
      simp [upsert_condition, hty, List.find?_cons, hc]

theorem ready_condition_type (num_successful num_failed num_total num_running : Nat) (t : Int) :
    (ready_condition num_successful num_failed num_total num_running t).type_ = "Ready" := by
  unfold ready_condition
  split
  · rfl
  · split <;> rfl

/-- Counterexample for C4: with zero observed jobs the code sets Ready to
True with reason AllJobsSucceeded even though no job count is positive, so
the claimed "exactly when the successful count equals a positive total"
and "with zero observed jobs, Ready is not True" fail. -/
theorem ready_zero_jobs_counterexample :
    (evaluate_playbookplan_conditions [] 0 0
        ⟨none, none, none, [], none, none, none, none⟩).conditions.find?
        (fun c => c.type_ == "Ready") =
      some ⟨"Ready", "True", some "AllJobsSucceeded",
        some "0/0 jobs completed successfully", some 0⟩ ∧
    ¬(count_successful [] = ([] : List Job).length ∧ 0 < ([] : List Job).length) := by
  constructor
  · rfl
  · decide

/-- Claim C4 (amended): the Ready condition has status True with reason
AllJobsSucceeded exactly when the successful count equals the total count
(with no positivity requirement, so zero observed jobs also yield Ready
True); it is False with reason SomeOrAllJobsFailed when the counts differ
and the failed count is positive, and False with reason AwaitingJobResults
when the counts differ and no job failed; the conditions produced by
evaluate_playbookplan_conditions contain a Ready condition with exactly
that status and reason. -/
theorem ready_condition_spec :
    (∀ num_successful num_failed num_total num_running t,
      (((ready_condition num_successful num_failed num_total num_running t).status = "True" ∧
        (ready_condition num_successful num_failed num_total num_running t).reason =
          some "AllJobsSucceeded") ↔ num_successful = num_total) ∧
      (num_successful ≠ num_total → 0 < num_failed →
        (ready_condition num_successful num_failed num_total num_running t).status = "False" ∧
        (ready_condition num_successful num_failed num_total num_running t).reason =
          some "SomeOrAllJobsFailed") ∧
      (num_successful ≠ num_total → num_failed = 0 →
        (ready_condition num_successful num_failed num_total num_running t).status = "False" ∧
        (ready_condition num_successful num_failed num_total num_running t).reason =
          some "AwaitingJobResults")) ∧
    (∀ jobs t_running t_ready status, ∃ c,
      (evaluate_playbookplan_conditions jobs t_running t_ready status).conditions.find?
          (fun d => d.type_ == "Ready") = some c ∧
      c.status = (ready_condition (count_successful jobs) (count_failed jobs) jobs.length
        (jobs.length - (count_failed jobs + count_successful jobs)) t_ready).status ∧
      c.reason = (ready_condition (count_successful jobs) (count_failed jobs) jobs.length
        (jobs.length - (count_failed jobs + count_successful jobs)) t_ready).reason) := by
  constructor
  · intro ns nf nt nr t
    refine ⟨⟨fun h => ?_, fun h => ?_⟩, fun hne hf => ?_, fun hne hf => ?_⟩
    · by_contra hne
      have h1 := h.1
      unfold ready_condition at h1
      rw [if_neg hne] at h1
      by_cases hfp : nf > 0
      · rw [if_pos hfp] at h1; simp at h1
      · rw [if_neg hfp] at h1; simp at h1
    · unfold ready_condition
      rw [if_pos h]
      exact ⟨rfl, rfl⟩
    · unfold ready_condition
      rw [if_neg hne, if_pos hf]
      exact ⟨rfl, rfl⟩
    · unfold ready_condition
      rw [if_neg hne, if_neg (by omega : ¬nf > 0)]
      exact ⟨rfl, rfl⟩
  · intro jobs t_running t_ready status
    obtain ⟨c, hc, hty, hs, hr⟩ :=
      upsert_condition_find
        (upsert_condition status.conditions
          (running_condition (jobs.length - (count_failed jobs + count_successful jobs))
            (count_failed jobs + count_successful jobs) jobs.length t_running))
        (ready_condition (count_successful jobs) (count_failed jobs) jobs.length
          (jobs.length - (count_failed jobs + count_successful jobs)) t_ready)
    refine ⟨c, ?_, hs, hr⟩
    have htype := ready_condition_type (count_successful jobs) (count_failed jobs) jobs.length
      (jobs.length - (count_failed jobs + count_successful jobs)) t_ready
    rw [htype] at hc
    exact hc

/-- Witness for C4: two successful jobs out of two give Ready True with
reason AllJobsSucceeded. -/
theorem ready_condition_spec_witness :
    (ready_condition 2 0 2 0 7).status = "True" ∧
    (ready_condition 2 0 2 0 7).reason = some "AllJobsSucceeded" :=
  ((ready_condition_spec.1 2 0 2 0 7).1).mpr rfl

theorem same_except_hosts_status_refl (a : PlaybookPlanStatus) :
    same_except_hosts_status a a :=
  ⟨rfl, rfl, rfl, rfl, rfl, rfl, rfl⟩

theorem same_except_hosts_status_trans {a b c : PlaybookPlanStatus}
    (h₁ : same_except_hosts_status a b) (h₂ : same_except_hosts_status b c) :
    same_except_hosts_status a c := by
  obtain ⟨e₁, e₂, e₃, e₄, e₅, e₆, e₇⟩ := h₁
  obtain ⟨f₁, f₂, f₃, f₄, f₅, f₆, f₇⟩ := h₂
  exact ⟨e₁.trans f₁, e₂.trans f₂, e₃.trans f₃, e₄.trans f₄, e₅.trans f₅, e₆.trans f₆,
    e₇.trans f₇⟩

theorem per_host_step_spec (hash : Nat) (status : PlaybookPlanStatus) (job : Job) :
    same_except_hosts_status (per_host_step hash status job) status ∧
    ∀ host, hostEntry (per_host_step hash status job) host =
      if lookupKey (job.labels.getD []) PLAYBOOKPLAN_HOST = some host
      then some ⟨hexStr hash⟩ else hostEntry status host := by
  rcases hl : lookupKey (job.labels.getD []) PLAYBOOKPLAN_HOST with _ | target
  · have hred : per_host_step hash status job =
        if status.hosts_status.isNone then { status with hosts_status := some [] }
        else status := by
      unfold per_host_step
      rw [hl]
    rcases hhs : status.hosts_status with _ | m
    · rw [hred, hhs]
      exact ⟨⟨rfl, rfl, rfl, rfl, rfl, rfl, rfl⟩, fun host => by simp [hostEntry, hhs]⟩
    · rw [hred, hhs]
      exact ⟨same_except_hosts_status_refl status, fun host => rfl⟩
  · have hred : per_host_step hash status job =
        { status with
          hosts_status :=
            some (btreeInsert target ⟨hexStr hash⟩ (status.hosts_status.getD [])) } := by
      unfold per_host_step
      rw [hl]
    rw [hred]
    refine ⟨⟨rfl, rfl, rfl, rfl, rfl, rfl, rfl⟩, fun host => ?_⟩
    show lookupKey (btreeInsert target ⟨hexStr hash⟩ (status.hosts_status.getD [])) host = _
    rw [lookupKey_btreeInsert]
    by_cases heq : target = host
    · simp [heq, hostEntry]
    · simp only [heq, if_false, Option.some.injEq, if_neg heq]
      rfl

theorem per_host_fold_spec (hash : Nat) :
    ∀ (l : List Job) (status : PlaybookPlanStatus),
      same_except_hosts_status (l.foldl (per_host_step hash) status) status ∧
      ∀ host, hostEntry (l.foldl (per_host_step hash) status) host =
        if host ∈ l.filterMap (fun job => lookupKey (job.labels.getD []) PLAYBOOKPLAN_HOST)
        then some ⟨hexStr hash⟩ else hostEntry status host := by
  intro l
  induction l with
  | nil =>
    intro status
    exact ⟨same_except_hosts_status_refl status, fun host => by simp⟩
  | cons job rest ih =>
    intro status
    have hstep := per_host_step_spec hash status job
    have hrest := ih (per_host_step hash status job)
    refine ⟨same_except_hosts_status_trans hrest.1 hstep.1, fun host => ?_⟩
    rw [List.foldl_cons, hrest.2 host]
    rcases hl : lookupKey (job.labels.getD []) PLAYBOOKPLAN_HOST with _ | target
    · have hse := hstep.2 host
      rw [hl] at hse
      simp only [List.filterMap_cons, hl]
      by_cases hmem :
          host ∈ rest.filterMap (fun job => lookupKey (job.labels.getD []) PLAYBOOKPLAN_HOST)
      · simp [hmem]
      · simp only [if_neg hmem, hse]
        simp
    · have hse := hstep.2 host
      rw [hl] at hse
      simp only [List.filterMap_cons, hl]
      by_cases hmem :
          host ∈ rest.filterMap (fun job => lookupKey (job.labels.getD []) PLAYBOOKPLAN_HOST)
      · simp [hmem, List.mem_cons]
      · by_cases heq : target = host
        · subst heq
          simp [hmem, hse, List.mem_cons]
        · have hne : ¬host = target := fun h => heq h.symm
          simp [hmem, hse, List.mem_cons, hne, Option.some.injEq, heq]

/-- Claim C7: evaluate_per_host_status sets the hosts_status entry to the
hex string of the current fingerprint exactly for the hosts named by the
playbookplan.host label of a job carrying a SuccessCriteriaMet True
condition; every other host's entry (including hosts of successful jobs
lacking the label and hosts of failed jobs) is exactly as in the input
status. -/
theorem evaluate_per_host_status_spec :
    ∀ (jobs : List Job) (hash : Nat) (status : PlaybookPlanStatus) (host : String),
      (host ∈ successful_labeled_hosts jobs →
        hostEntry (evaluate_per_host_status jobs hash status) host = some ⟨hexStr hash⟩) ∧
      (host ∉ successful_labeled_hosts jobs →
        hostEntry (evaluate_per_host_status jobs hash status) host = hostEntry status host) := by
  intro jobs hash status host
  have h := (per_host_fold_spec hash (jobs.filter job_is_successful) status).2 host
  rw [evaluate_per_host_status]
  rw [successful_labeled_hosts] at *
  constructor
  · intro hmem
    rw [h, if_pos hmem]
  · intro hmem
    rw [h, if_neg hmem]

/-- Witness for C7: a successful job labelled for h1 rolls h1 forward to
the hex fingerprint 2, while h2 (covered only by a failed job) keeps its
prior entry. -/
theorem evaluate_per_host_status_spec_witness :
    hostEntry
      (evaluate_per_host_status
        [⟨some [("playbookplan.host", "h1")], some ⟨some [⟨"SuccessCriteriaMet", "True"⟩]⟩⟩,
         ⟨some [("playbookplan.host", "h2")], some ⟨some [⟨"Failed", "True"⟩]⟩⟩]
        2 ⟨none, none, none, [], some [("h2", ⟨"1"⟩)], none, none, none⟩) "h1" =
      some ⟨"2"⟩ ∧
    hostEntry
      (evaluate_per_host_status
        [⟨some [("playbookplan.host", "h1")], some ⟨some [⟨"SuccessCriteriaMet", "True"⟩]⟩⟩,
         ⟨some [("playbookplan.host", "h2")], some ⟨some [⟨"Failed", "True"⟩]⟩⟩]
        2 ⟨none, none, none, [], some [("h2", ⟨"1"⟩)], none, none, none⟩) "h2" =
      hostEntry ⟨none, none, none, [], some [("h2", ⟨"1"⟩)], none, none, none⟩ "h2" :=
  ⟨by
    have h :=
      (evaluate_per_host_status_spec
        [⟨some [("playbookplan.host", "h1")], some ⟨some [⟨"SuccessCriteriaMet", "True"⟩]⟩⟩,
         ⟨some [("playbookplan.host", "h2")], some ⟨some [⟨"Failed", "True"⟩]⟩⟩]
        2 ⟨none, none, none, [], some [("h2", ⟨"1"⟩)], none, none, none⟩ "h1").1 (by decide)
    rw [h]
    decide,
   (evaluate_per_host_status_spec
      [⟨some [("playbookplan.host", "h1")], some ⟨some [⟨"SuccessCriteriaMet", "True"⟩]⟩⟩,
       ⟨some [("playbookplan.host", "h2")], some ⟨some [⟨"Failed", "True"⟩]⟩⟩]
      2 ⟨none, none, none, [], some [("h2", ⟨"1"⟩)], none, none, none⟩ "h2").2 (by decide)⟩

/-- Claim C10: evaluate_per_host_status never removes a hosts_status
entry, never changes the entry of a host not named by the
playbookplan.host label of some SuccessCriteriaMet True job, and leaves
every other status field (conditions, phase, eligible hosts and count,
next run, current hash, last rendered generation) unchanged. -/
theorem evaluate_per_host_status_frame :
    ∀ (jobs : List Job) (hash : Nat) (status : PlaybookPlanStatus),
      same_except_hosts_status (evaluate_per_host_status jobs hash status) status ∧
      (∀ host v, hostEntry status host = some v →
        ∃ w, hostEntry (evaluate_per_host_status jobs hash status) host = some w) ∧
      (∀ host, host ∉ successful_labeled_hosts jobs →
        hostEntry (evaluate_per_host_status jobs hash status) host = hostEntry status host) := by
  intro jobs hash status
  have hfold := per_host_fold_spec hash (jobs.filter job_is_successful) status
  refine ⟨hfold.1, fun host v hv => ?_, fun host hmem => ?_⟩
  · have h := hfold.2 host
    rw [evaluate_per_host_status]
    rw [h]
    by_cases hmem :
        host ∈ (jobs.filter job_is_successful).filterMap
          (fun job => lookupKey (job.labels.getD []) PLAYBOOKPLAN_HOST)
    · exact ⟨⟨hexStr hash⟩, by rw [if_pos hmem]⟩
    · exact ⟨v, by rw [if_neg hmem, hv]⟩
  · rw [successful_labeled_hosts] at hmem
    rw [evaluate_per_host_status, hfold.2 host, if_neg hmem]

/-- Witness for C10: with one successful labelled job, the frame fields
are untouched and the pre-existing entry for the unrelated host h2
survives. -/
theorem evaluate_per_host_status_frame_witness :
    (evaluate_per_host_status
      [⟨some [("playbookplan.host", "h1")], some ⟨some [⟨"SuccessCriteriaMet", "True"⟩]⟩⟩]
      2 ⟨none, none, none, [], some [("h2", ⟨"1"⟩)], none, some Phase.Applying, none⟩).phase =
      some Phase.Applying ∧
    hostEntry
      (evaluate_per_host_status
        [⟨some [("playbookplan.host", "h1")], some ⟨some [⟨"SuccessCriteriaMet", "True"⟩]⟩⟩]
        2 ⟨none, none, none, [], some [("h2", ⟨"1"⟩)], none, some Phase.Applying, none⟩) "h2" =
      hostEntry ⟨none, none, none, [], some [("h2", ⟨"1"⟩)], none, some Phase.Applying, none⟩
        "h2" :=
  ⟨(evaluate_per_host_status_frame
      [⟨some [("playbookplan.host", "h1")], some ⟨some [⟨"SuccessCriteriaMet", "True"⟩]⟩⟩]
      2 ⟨none, none, none, [], some [("h2", ⟨"1"⟩)], none, some Phase.Applying, none⟩).1.2.2.2.2.2.1,
   (evaluate_per_host_status_frame
      [⟨some [("playbookplan.host", "h1")], some ⟨some [⟨"SuccessCriteriaMet", "True"⟩]⟩⟩]
      2 ⟨none, none, none, [], some [("h2", ⟨"1"⟩)], none, some Phase.Applying, none⟩).2.2 "h2"
      (by decide)⟩

theorem charListLt_trans :
    ∀ xs ys zs, charListLt xs ys = true → charListLt ys zs = true → charListLt xs zs = true := by
  intro xs
  induction xs with
  | nil =>
    intro ys zs h1 h2
    cases ys with
    | nil => simp [charListLt] at h1
    | cons d ds =>
      cases zs with
      | nil => simp [charListLt] at h2
      | cons e es => simp [charListLt]
  | cons c cs ih =>
    intro ys zs h1 h2
    cases ys with
    | nil => simp [charListLt] at h1
    | cons d ds =>
      cases zs with
      | nil => simp [charListLt] at h2
      | cons e es =>
        simp only [charListLt] at h1 h2 ⊢
        by_cases hcd : c < d
        · by_cases hde : d < e
          · simp [lt_trans hcd hde]
          · by_cases hed : e < d
            · simp [hde, hed] at h2
            · have heqde : d = e := le_antisymm (le_of_not_lt hed) (le_of_not_lt hde)
              subst heqde
              simp [hcd]
        · by_cases hdc : d < c
          · simp [hcd, hdc] at h1
          · have heqcd : c = d := le_antisymm (le_of_not_lt hdc) (le_of_not_lt hcd)
            subst heqcd
            simp only [lt_irrefl, if_false] at h1
            by_cases hce : c < e
            · simp [hce]
            · by_cases hec : e < c
              · simp [hce, hec] at h2
              · have heqce : c = e := le_antisymm (le_of_not_lt hec) (le_of_not_lt hce)
                subst heqce
                simp only [lt_irrefl, if_false] at h2 ⊢
                exact ih ds es h1 h2

theorem charListLt_total :
    ∀ xs ys, charListLt xs ys = false → charListLt ys xs = false → xs = ys := by
  intro xs
  induction xs with
  | nil =>
    intro ys h1 h2
    cases ys with
    | nil => rfl
    | cons d ds => simp [charListLt] at h1
  | cons c cs ih =>
    intro ys h1 h2
    cases ys with
    | nil => simp [charListLt] at h2
    | cons d ds =>
      simp only [charListLt] at h1 h2
      by_cases hcd : c < d
      · simp [hcd] at h1
      · by_cases hdc : d < c
        · simp [hcd, hdc] at h2
        · have heqcd : c = d := le_antisymm (le_of_not_lt hdc) (le_of_not_lt hcd)
          subst heqcd
          simp only [lt_irrefl, if_false] at h1 h2
          rw [ih ds h1 h2]

theorem strLt_trans {a b c : String} (h1 : strLt a b = true) (h2 : strLt b c = true) :
    strLt a c = true :=
  charListLt_trans a.data b.data c.data h1 h2

theorem strLt_of_not_of_ne {a b : String} (h1 : strLt a b = false) (h2 : a ≠ b) :
    strLt b a = true := by
  cases h : strLt b a
  · exact absurd (String.ext (charListLt_total a.data b.data h1 h)) h2
  · rfl

theorem btreeInsert_mem {α : Type} (k : String) (v : α) (l : List (String × α)) :
    ∀ e ∈ btreeInsert k v l, e = (k, v) ∨ e ∈ l := by
  induction l with
  | nil =>
    intro e he
    simp only [btreeInsert, List.mem_singleton] at he
    exact Or.inl he
  | cons head rest ih =>
    obtain ⟨hk, hv⟩ := head
    intro e he
    cases hlt : strLt k hk
    · by_cases heq : k = hk
      · simp only [btreeInsert, hlt, Bool.false_eq_true, if_false, if_pos heq] at he
        rcases List.mem_cons.mp he with rfl | hmem
        · exact Or.inl rfl
        · exact Or.inr (List.mem_cons_of_mem _ hmem)
      · simp only [btreeInsert, hlt, Bool.false_eq_true, if_false, if_neg heq] at he
        rcases List.mem_cons.mp he with rfl | hmem
        · exact Or.inr (List.mem_cons_self _ _)
        · rcases ih e hmem with h | h
          · exact Or.inl h
          · exact Or.inr (List.mem_cons_of_mem _ h)
    · simp only [btreeInsert, hlt, if_true] at he
      rcases List.mem_cons.mp he with rfl | hmem
      · exact Or.inl rfl
      · exact Or.inr hmem

theorem btreeInsert_pairwise {α : Type} (k : String) (v : α) (l : List (String × α))
    (h : l.Pairwise (fun a b => strLt a.1 b.1 = true)) :
    (btreeInsert k v l).Pairwise (fun a b => strLt a.1 b.1 = true) := by
  induction l with
  | nil => simp [btreeInsert]
  | cons head rest ih =>
    obtain ⟨hk, hv⟩ := head
    rw [List.pairwise_cons] at h
    obtain ⟨hhead, hrest⟩ := h
    cases hlt : strLt k hk
    · by_cases heq : k = hk
      · subst heq
        simp only [btreeInsert, hlt, Bool.false_eq_true, if_false, if_pos rfl]
        exact List.pairwise_cons.mpr ⟨hhead, hrest⟩
      · simp only [btreeInsert, hlt, Bool.false_eq_true, if_false, if_neg heq]
        refine List.pairwise_cons.mpr ⟨?_, ih hrest⟩
        intro e he
        rcases btreeInsert_mem k v rest e he with rfl | hmem
        · exact strLt_of_not_of_ne hlt heq
        · exact hhead e hmem
    · simp only [btreeInsert, hlt, if_true]
      refine List.pairwise_cons.mpr ⟨?_, List.pairwise_cons.mpr ⟨hhead, hrest⟩⟩
      intro e he
      rcases List.mem_cons.mp he with rfl | hmem
      · exact hlt
      · exact strLt_trans hlt (hhead e hmem)

theorem resolve_foldl_mem (nodes : List KNode) :
    ∀ (invs : List Inventory) (init : List (String × List String)) e,
      e ∈ invs.foldl
        (fun resolved inventory =>
          btreeInsert inventory.name (resolve_hosts nodes inventory.hosts) resolved) init →
      e ∈ init ∨ ∃ inv ∈ invs, e.1 = inv.name ∧ e.2 = resolve_hosts nodes inv.hosts := by
  intro invs
  induction invs with
  | nil => intro init e he; exact Or.inl he
  | cons inv rest ih =>
    intro init e he
    rw [List.foldl_cons] at he
    rcases ih _ e he with hin | ⟨inv2, hmem, h1, h2⟩
    · rcases btreeInsert_mem _ _ _ e hin with heq | hin2
      · exact Or.inr ⟨inv, List.mem_cons_self _ _, by rw [heq], by rw [heq]⟩
      · exact Or.inl hin2
    · exact Or.inr ⟨inv2, List.mem_cons_of_mem _ hmem, h1, h2⟩

theorem resolve_foldl_pairwise (nodes : List KNode) :
    ∀ (invs : List Inventory) (init : List (String × List String)),
      init.Pairwise (fun a b => strLt a.1 b.1 = true) →
      (invs.foldl
        (fun resolved inventory =>
          btreeInsert inventory.name (resolve_hosts nodes inventory.hosts) resolved)
        init).Pairwise (fun a b => strLt a.1 b.1 = true) := by
  intro invs
  induction invs with
  | nil => intro init h; exact h
  | cons inv rest ih =>
    intro init h
    rw [List.foldl_cons]
    exact ih _ (btreeInsert_pairwise _ _ _ h)

theorem lookupKey_mem {α : Type} :
    ∀ (l : List (String × α)) (key : String) (v : α),
      lookupKey l key = some v → (key, v) ∈ l := by
  intro l
  induction l with
  | nil => intro key v h; simp [lookupKey] at h
  | cons head rest ih =>
    obtain ⟨k, w⟩ := head
    intro key v h
    rw [lookupKey] at h
    by_cases heq : k = key
    · rw [if_pos heq] at h
      injection h with h
      subst heq
      subst h
      exact List.mem_cons_self _ _
    · rw [if_neg heq] at h
      exact List.mem_cons_of_mem _ (ih key v h)

theorem resolve_foldl_lookup (nodes : List KNode) :
    ∀ (invs : List Inventory) (init : List (String × List String)) (key : String),
      (∃ v, lookupKey init key = some v) ∨ (∃ inv ∈ invs, inv.name = key) →
      ∃ v, lookupKey
        (invs.foldl
          (fun resolved inventory =>
            btreeInsert inventory.name (resolve_hosts nodes inventory.hosts) resolved) init)
        key = some v := by
  intro invs
  induction invs with
  | nil =>
    intro init key h
    rcases h with h | ⟨inv, hmem, _⟩
    · exact h
    · simp at hmem
  | cons inv rest ih =>
    intro init key h
    rw [List.foldl_cons]
    apply ih
    rcases h with ⟨v, hv⟩ | ⟨inv2, hmem, hname⟩
    · left
      rw [lookupKey_btreeInsert]
      by_cases heq : inv.name = key
      · exact ⟨resolve_hosts nodes inv.hosts, by rw [if_pos heq]⟩
      · exact ⟨v, by rw [if_neg heq, hv]⟩
    · rcases List.mem_cons.mp hmem with rfl | hmem2
      · left
        rw [lookupKey_btreeInsert]
        exact ⟨resolve_hosts nodes inv2.hosts, by rw [if_pos hname]⟩
      · exact Or.inr ⟨inv2, hmem2, hname⟩

/-- Counterexample for C5: with the inventory spec listing group b before
group a, the resolved mapping (a BTreeMap) enumerates a before b, so the
group order of the resolved mapping and of the rendered inventory is the
ascending key order, not the spec order. -/
theorem resolve_spec_order_counterexample :
    (resolve []
        [⟨"b", Hosts.FromStaticList ["h2"]⟩, ⟨"a", Hosts.FromStaticList ["h1"]⟩]).map
      Prod.fst = ["a", "b"] ∧
    ([⟨"b", Hosts.FromStaticList ["h2"]⟩,
      ⟨"a", Hosts.FromStaticList ["h1"]⟩] : List Inventory).map Inventory.name = ["b", "a"] ∧
    yamlKeys (render_inventory (resolve []
        [⟨"b", Hosts.FromStaticList ["h2"]⟩, ⟨"a", Hosts.FromStaticList ["h1"]⟩])) =
      ["a", "b"] ∧
    (["a", "b"] : List String) ≠ ["b", "a"] := by
  refine ⟨by decide, by decide, ?_, by decide⟩
  decide

/-- Claim C5 (amended): the resolved inventory mapping enumerates groups
in ascending lexicographic order of group name (BTreeMap key order), not
in spec order; every entry is the resolution of an inventory of that name
from the spec (hosts in resolver output order); every group name of the
spec appears in the mapping (so the mapping's key set is exactly the
spec's group names); and the rendered inventory.yml lists the groups in
the mapping's order, each group mapping hosts to every hostname (in
resolver order) paired with an empty mapping. -/
theorem resolve_render_spec :
    ∀ (nodes : List KNode) (invs : List Inventory),
      (resolve nodes invs).Pairwise (fun a b => strLt a.1 b.1 = true) ∧
      (∀ e ∈ resolve nodes invs,
        ∃ inv ∈ invs, e.1 = inv.name ∧ e.2 = resolve_hosts nodes inv.hosts) ∧
      (∀ inv ∈ invs, ∃ hosts, (inv.name, hosts) ∈ resolve nodes invs) ∧
      render_inventory (resolve nodes invs) =
        Yaml.map ((resolve nodes invs).map fun group =>
          (group.1,
            Yaml.map [("hosts",
              Yaml.map (group.2.map fun hostname => (hostname, Yaml.map [])))])) ∧
      yamlKeys (render_inventory (resolve nodes invs)) = (resolve nodes invs).map Prod.fst := by
  intro nodes invs
  refine ⟨resolve_foldl_pairwise nodes invs [] (by simp), fun e he => ?_,
    fun inv hinv => ?_, rfl, ?_⟩
  · rcases resolve_foldl_mem nodes invs [] e he with h | h
    · simp at h
    · exact h
  · obtain ⟨v, hv⟩ :=
      resolve_foldl_lookup nodes invs [] inv.name (Or.inr ⟨inv, hinv, rfl⟩)
    exact ⟨v, lookupKey_mem _ _ _ hv⟩
  · simp [render_inventory, yamlKeys]

/-- Witness for C5: the amended facts evaluated on a concrete two-group
spec, with the entry-origin clause applied to the group a entry and the
completeness clause applied to the spec group b. -/
theorem resolve_render_spec_witness :
    (resolve [] [⟨"b", Hosts.FromStaticList ["h2"]⟩,
        ⟨"a", Hosts.FromStaticList ["h1"]⟩]).Pairwise
      (fun a b => strLt a.1 b.1 = true) ∧
    (∃ inv ∈ ([⟨"b", Hosts.FromStaticList ["h2"]⟩,
        ⟨"a", Hosts.FromStaticList ["h1"]⟩] : List Inventory),
      ("a", ["h1"]).1 = inv.name ∧ ("a", ["h1"]).2 = resolve_hosts [] inv.hosts) ∧
    (∃ hosts, ("b", hosts) ∈ resolve []
      [⟨"b", Hosts.FromStaticList ["h2"]⟩, ⟨"a", Hosts.FromStaticList ["h1"]⟩]) :=
  ⟨(resolve_render_spec []
      [⟨"b", Hosts.FromStaticList ["h2"]⟩, ⟨"a", Hosts.FromStaticList ["h1"]⟩]).1,
   (resolve_render_spec []
      [⟨"b", Hosts.FromStaticList ["h2"]⟩, ⟨"a", Hosts.FromStaticList ["h1"]⟩]).2.1
     ("a", ["h1"]) (by decide),
   (resolve_render_spec []
      [⟨"b", Hosts.FromStaticList ["h2"]⟩, ⟨"a", Hosts.FromStaticList ["h1"]⟩]).2.2.1
     ⟨"b", Hosts.FromStaticList ["h2"]⟩ (by decide)⟩
